import Mathlib

/-!
Verification of the MAResearchAssistant repository against its
natural-language specification.

The JavaScript sources are shallowly embedded: JavaScript strings are
`List Char`, network calls become explicit oracles (functions supplied as
arguments), and every function of interest is translated into an executable
Lean definition.  Theorems below settle the frozen claims about the code.
-/

namespace MAFARS

/-- Characters of a JavaScript string; all string processing in the sources is
modelled over `List Char`. -/
abbrev Str := List Char

/-- The character list of a Lean string literal. -/
def str (s : String) : Str := s.data

/-- Model of `String.prototype.toLowerCase` (character-wise lowering, which is
faithful for the ASCII phrases the code matches on). -/
def toLowerL (s : Str) : Str := s.map Char.toLower

/-- Model of `String.prototype.includes`: substring containment. -/
def containsSub (needle haystack : Str) : Bool := decide (needle <:+: haystack)

/-- Whitespace as matched by the JavaScript regex class and by
`String.prototype.trim` (the characters that can actually occur here). -/
def jsWs (c : Char) : Bool :=
  c = ' ' || c = '\t' || c = '\n' || c = '\x0d' || c = '\x0b' || c = '\x0c' || c = '\xa0'

/-- Model of `String.prototype.trim`. -/
def trimL (s : Str) : Str := ((s.dropWhile jsWs).reverse.dropWhile jsWs).reverse

/-- Does `l` start, case-insensitively, with the (lowercase) pattern `p`? -/
def startsLower (p l : Str) : Bool := decide ((toLowerL l).take p.length = p)

/-- Text after the first case-insensitive occurrence of the (lowercase)
pattern `p` in `l`, or `none` when `p` does not occur. -/
def afterCaseless (p : Str) : Str → Option Str
  | [] => if p.isEmpty then some [] else none
  | c :: rest =>
    if startsLower p (c :: rest) then some ((c :: rest).drop p.length)
    else afterCaseless p rest

/-- Split `l` at the first case-insensitive occurrence of the (lowercase)
pattern `p`: the text before the occurrence and the text after it. -/
def splitCaseless (p : Str) : Str → Option (Str × Str)
  | [] => if p.isEmpty then some ([], []) else none
  | c :: rest =>
    if startsLower p (c :: rest) then some ([], (c :: rest).drop p.length)
    else (splitCaseless p rest).map fun pr => (c :: pr.1, pr.2)

namespace PubMed

/-- One record of the esummary response body
(`summaryResponse.data.result[id]` in `PubMedClient.search`).  A JSON field
that may be absent is an `Option`; authors are already projected to their
`name` field, the only one the code reads. -/
structure SummaryItem where
  uid : Option Str
  title : Option Str
  authors : Option (List Str)
  fulljournalname : Option Str
  pubdate : Option Str
  source : Option Str
  elocationid : Option Str
  meshheadings : Option (List Str)
deriving DecidableEq

/-- The article records built by `PubMedClient.search`. -/
structure Article where
  pmid : Str
  title : Str
  authors : List Str
  journal : Str
  pubDate : Str
  source : Str
  doi : Str
  abstract : Str
  meshTerms : List Str
deriving DecidableEq, Inhabited

/-- JavaScript `x || d` for an optional string field: the default is used when
the field is absent or the empty string (both falsy). -/
def orFalsy (v : Option Str) (d : Str) : Str :=
  match v with
  | some s => if s.isEmpty then d else s
  | none => d

/-- The article built from one truthy summary item in the loop body of
`PubMedClient.search` (pubmed-client.js lines 55-65); `u` is `item.uid`. -/
def mkArticle (u : Str) (item : SummaryItem) : Article :=
  { pmid := u
    title := orFalsy item.title (str "No title")
    authors := item.authors.getD []
    journal := item.fulljournalname.getD []
    pubDate := item.pubdate.getD []
    source := item.source.getD []
    doi := item.elocationid.getD []
    abstract := []
    meshTerms := item.meshheadings.getD [] }

/-- `PubMedClient.search`, success path.  `idList` is the esearch response's
`idlist` (`none` when the field is missing, which the code treats like an
empty list); `results` is the esummary response's `result` map.  An
identifier whose summary record is missing, or whose `uid` is absent or empty
(falsy), is skipped by the `if (item && item.uid)` guard.  `searchItem` is
the body of the parsing loop for one identifier. -/
def searchItem (results : Str → Option SummaryItem) (id : Str) : Option Article :=
  match results id with
  | none => none
  | some item =>
    match item.uid with
    | none => none
    | some u => if u.isEmpty then none else some (mkArticle u item)

/-- The loop of `PubMedClient.search` over the identifier list: one optional
article per identifier, via `searchItem`. -/
def search (idList : Option (List Str)) (results : Str → Option SummaryItem) :
    List Article :=
  match idList with
  | none => []
  | some ids =>
    if ids.isEmpty then []
    else ids.filterMap (searchItem results)

/-- Fuelled scan for the global regex replace of `/<[^>]+>/g`: a `<` followed
by at least one non-`>` character and a closing `>` is removed together with
the enclosed characters, any other character is kept.  Every step consumes at
least one input character, so fuel equal to the input length never runs
out (the fuel keeps the recursion structural, hence kernel-reducible). -/
def stripTagsF : Nat → Str → Str
  | 0, l => l
  | _ + 1, [] => []
  | fuel + 1, c :: rest =>
    if c = '<' ∧ ¬(rest.takeWhile (· ≠ '>')).isEmpty ∧
        ¬(rest.dropWhile (· ≠ '>')).isEmpty then
      stripTagsF fuel ((rest.dropWhile (· ≠ '>')).tail)
    else c :: stripTagsF fuel rest

/-- Global regex replace of `/<[^>]+>/g` with the empty string, used on
extracted abstract and title text. -/
def stripTags (l : Str) : Str := stripTagsF l.length l

/-- Extraction of the abstract text in `PubMedClient.getAbstract`: the first
case-insensitive match of `/<AbstractText[^>]*>([\s\S]*?)<\/AbstractText>/`,
with inner tags stripped and the result trimmed; the empty string when the
regex does not match. -/
def extractAbstract (data : Str) : Str :=
  match afterCaseless (str "<abstracttext") data with
  | none => []
  | some afterOpen =>
    match afterOpen.dropWhile (· ≠ '>') with
    | [] => []
    | _ :: content =>
      match splitCaseless (str "</abstracttext>") content with
      | none => []
      | some pr => trimL (stripTags pr.1)

/-- Extraction of the title in `PubMedClient.getAbstract`: the first
case-insensitive match of `/<ArticleTitle>([\s\S]*?)<\/ArticleTitle>/`. -/
def extractTitle (data : Str) : Option Str :=
  match afterCaseless (str "<articletitle>") data with
  | none => none
  | some content =>
    match splitCaseless (str "</articletitle>") content with
    | none => none
    | some pr => some (trimL (stripTags pr.1))

/-- Backtracking scan for `<Year>(\d{4})<\/Year>[\s\S]*?<\/PubDate>` after an
opening `<PubDate>`: successive case-insensitive `<year>` occurrences are
tried until one is followed by four digits, `</year>`, and eventually
`</pubdate>`. -/
def scanYear (fuel : Nat) (l : Str) : Option Str :=
  match fuel with
  | 0 => none
  | fuel + 1 =>
    match afterCaseless (str "<year>") l with
    | none => none
    | some afterY =>
      let ds := afterY.take 4
      if ds.length = 4 ∧ ds.all Char.isDigit ∧
          startsLower (str "</year>") (afterY.drop 4) ∧
          (afterCaseless (str "</pubdate>") (afterY.drop 4)).isSome
      then some ds
      else scanYear fuel afterY

/-- Extraction of the publication year in `PubMedClient.getAbstract`:
the regex `/<PubDate>[\s\S]*?<Year>(\d{4})<\/Year>[\s\S]*?<\/PubDate>/i`. -/
def extractYear (data : Str) : Option Str :=
  match afterCaseless (str "<pubdate>") data with
  | none => none
  | some rest => scanYear (rest.length + 1) rest

/-- Result record of `PubMedClient.getAbstract`.  `title` and `pubYear` are
present only when extracted; `error` is present only on the catch path
(pubmed-client.js line 120). -/
structure AbstractRecord where
  pmid : Str
  abstract : Str
  title : Option Str
  pubYear : Option Str
  error : Option Str
deriving DecidableEq, Inhabited

/-- Network oracle for the efetch endpoint: for a pmid, either the error
message of a failed request (the catch path) or the response body. -/
abbrev Net := Str → Except Str Str

/-- `PubMedClient.getAbstract`: on a request failure the catch block returns
`\x7b pmid, abstract: "", error: message \x7d`; on success the body is parsed
by regex matching and no `error` field is set. -/
def getAbstract (net : Net) (pmid : Str) : AbstractRecord :=
  match net pmid with
  | .error msg =>
    { pmid := pmid, abstract := [], title := none, pubYear := none, error := some msg }
  | .ok data =>
    { pmid := pmid
      abstract := extractAbstract data
      title := extractTitle data
      pubYear := extractYear data
      error := none }

/-- `PubMedClient.getAbstracts`: one sequential `getAbstract` per pmid (the
rate-limiting sleep has no effect on the produced values). -/
def getAbstracts (net : Net) (pmids : List Str) : List AbstractRecord :=
  pmids.map (getAbstract net)

/-- The pmids passed to `getAbstracts` by `PubMedClient.searchFull`:
`articles.slice(0, 10).map(a => a.pmid)`. -/
def enrichPmids (articles : List Article) : List Str :=
  (articles.take 10).map (·.pmid)

/-- `PubMedClient.searchFull`, after the inner `search` call: fetch abstracts
for the first ten articles' pmids and merge each fetched abstract into every
article with a matching pmid (the nested loop with `break` takes the first
matching fetched record). -/
def searchFull (net : Net) (articles : List Article) : List Article :=
  let abstracts := getAbstracts net (enrichPmids articles)
  articles.map fun a =>
    match abstracts.find? (fun ab => decide (ab.pmid = a.pmid)) with
    | some ab => { a with abstract := ab.abstract }
    | none => a

end PubMed

namespace Agent

/-- The options object accepted by `MAResearchAgent.research` (agent.js).
`recentYears` comes from `parseInt` and is falsy when it is `0` (a
non-numeric flag value, `NaN`, is modelled as `none`). -/
structure Options where
  clinicalOnly : Bool := false
  recentYears : Option Int := none
  maxResults : Option Nat := none
  phase : Option Str := none
  focusAreas : Option Str := none
  drugs : List Str := []

/-- JavaScript truthiness of the numeric option `recentYears`. -/
def truthyNum : Option Int → Bool
  | some n => decide (n ≠ 0)
  | none => false

/-- The three search branches of step 1 of `MAResearchAgent.research`. -/
inductive SearchKind where
  | clinical
  | recent
  | plain
deriving DecidableEq

/-- The branch selection of step 1 of `MAResearchAgent.research`
(agent.js lines 36-42): `options.clinicalOnly` is tested first, then
`options.recentYears`, as independent if/else-if conditions. -/
def searchKindOf (o : Options) : SearchKind :=
  if o.clinicalOnly then .clinical
  else if truthyNum o.recentYears then .recent
  else .plain

/-- The Venice method selected by the task-type dispatch of step 2. -/
inductive VeniceMethod where
  | summarizeFindings
  | generateAbstract
  | generateKOLBriefing
  | generateCompetitiveAnalysis
  | generateMedicalInfoResponse
deriving DecidableEq

/-- Step 2 dispatch of `MAResearchAgent.research` (agent.js lines 52-64):
an unrecognized task type falls through to `summarizeFindings`. -/
def synthMethod (taskType : Str) : VeniceMethod :=
  if taskType = str "summary" then .summarizeFindings
  else if taskType = str "abstract" then .generateAbstract
  else if taskType = str "kol-briefing" then .generateKOLBriefing
  else if taskType = str "competitive" then .generateCompetitiveAnalysis
  else if taskType = str "medical-info" then .generateMedicalInfoResponse
  else .summarizeFindings

/-- The output generator selected by the task-type dispatch of step 3. -/
inductive OutputKind where
  | paper
  | slides
  | report
deriving DecidableEq

/-- Step 3 dispatch of `MAResearchAgent.research` (agent.js lines 70-76). -/
def outputKindOf (taskType : Str) : OutputKind :=
  if taskType = str "paper" then .paper
  else if taskType = str "slides" then .slides
  else .report

/-- The value returned by `MAResearchAgent.research`, extended with a count of
generative (Venice) calls and of output writes performed during the run.  On
the catch path the returned object carries only `success` and `error`; the
other fields are modelled as absent/empty there. -/
structure ResearchOutcome where
  success : Bool
  error : Option Str
  query : Option Str
  taskType : Option Str
  articles : List PubMed.Article
  summary : Option Str
  outputPath : Option Str
  veniceCalls : Nat
  outputWrites : Nat
deriving DecidableEq

/-- `MAResearchAgent.research`: the chosen search's outcome is supplied by
`searchRes` (exception message or article list), the generative call by
`venice`, and the document writer by `output`.  Zero articles raise
`Error("No articles found for query")`, which the top-level catch converts
into a failure object before any generative call or output write. -/
def research (searchRes : SearchKind → Except Str (List PubMed.Article))
    (venice : VeniceMethod → Str) (output : OutputKind → Str)
    (query taskType : Str) (o : Options) : ResearchOutcome :=
  match searchRes (searchKindOf o) with
  | .error e =>
    { success := false, error := some e, query := none, taskType := none,
      articles := [], summary := none, outputPath := none,
      veniceCalls := 0, outputWrites := 0 }
  | .ok articles =>
    if articles.isEmpty then
      { success := false, error := some (str "No articles found for query"),
        query := none, taskType := none, articles := [], summary := none,
        outputPath := none, veniceCalls := 0, outputWrites := 0 }
    else
      { success := true, error := none, query := some query,
        taskType := some taskType, articles := articles,
        summary := some (venice (synthMethod taskType)),
        outputPath := some (output (outputKindOf taskType)),
        veniceCalls := 1, outputWrites := 1 }

end Agent

namespace MultiAgent

/-- A hypothesis record built by `IdeationAgent.parseHypotheses`
(multi-agent.js).  The fallback record carries only `statement` and
`passedReview`; its other fields are modelled as empty. -/
structure Hypothesis where
  statement : Str
  importance : Str
  validation : Str
  evidence : List PubMed.Article
  passedReview : Bool
deriving DecidableEq

/-- Does the trimmed line continue, after its leading digits, with `.` or `)`
(the tail of the regex `/^\d+[\.)]/`)? -/
def numberedAfterDigit : Str → Bool
  | [] => false
  | c :: rest => if c.isDigit then numberedAfterDigit rest else (c = '.' || c = ')')

/-- Does the line match `/^\d+[\.)]/`? -/
def numberedStart : Str → Bool
  | [] => false
  | c :: rest => c.isDigit && numberedAfterDigit rest

/-- `line.replace(/^\d+[\.)]\s*/, "")`: when the numbering regex matches, the
digits, the bracket and the following whitespace run are removed. -/
def stripNumbering (l : Str) : Str :=
  if numberedStart l then ((l.dropWhile Char.isDigit).drop 1).dropWhile jsWs else l

/-- `line.replace(/hypothesis[:\s]*/i, "")`: the first case-insensitive
occurrence of "hypothesis" and the following run of colons and whitespace are
removed. -/
def stripHypTag : Str → Str
  | [] => []
  | c :: rest =>
    if startsLower (str "hypothesis") (c :: rest) then
      ((c :: rest).drop 10).dropWhile fun ch => ch = ':' || jsWs ch
    else c :: stripHypTag rest

/-- The trigger test of the parsing loop: the trimmed line matches
`/^\d+[\.)]/` or contains "hypothesis" case-insensitively. -/
def hypTrigger (line : Str) : Bool :=
  numberedStart line || containsSub (str "hypothesis") (toLowerL line)

/-- One new hypothesis record as created at a trigger line
(multi-agent.js lines 208-214). -/
def freshHyp (line : Str) (articles : List PubMed.Article) : Hypothesis :=
  { statement := stripHypTag (stripNumbering line)
    importance := []
    validation := []
    evidence := articles.take 5
    passedReview := true }

/-- The description-line update (multi-agent.js lines 215-218): a qualifying
line (> 20 characters) fills `importance` first, then `validation`. -/
def fillHyp (c : Hypothesis) (line : Str) : Hypothesis :=
  if c.importance.isEmpty then { c with importance := line }
  else if c.validation.isEmpty then { c with validation := line }
  else c

/-- `text.split("\n")`: all pieces are kept, including empty ones. -/
def splitNl : Str → List Str
  | [] => [[]]
  | c :: rest =>
    if c = '\n' then [] :: splitNl rest
    else
      match splitNl rest with
      | h :: t => (c :: h) :: t
      | [] => [[c]]

/-- The line loop of `IdeationAgent.parseHypotheses`, carrying the hypothesis
under construction; the trailing push of `current` happens when the lines run
out. -/
def parseLoop (articles : List PubMed.Article) :
    List Str → Option Hypothesis → List Hypothesis
  | [], none => []
  | [], some c => [c]
  | lineRaw :: rest, cur =>
    let line := trimL lineRaw
    if hypTrigger line then
      match cur with
      | some c => c :: parseLoop articles rest (some (freshHyp line articles))
      | none => parseLoop articles rest (some (freshHyp line articles))
    else
      match cur with
      | some c =>
        if decide (line.length > 20) then parseLoop articles rest (some (fillHyp c line))
        else parseLoop articles rest (some c)
      | none => parseLoop articles rest none

/-- `IdeationAgent.parseHypotheses`: line-based parsing with a single
fallback hypothesis, the first 200 characters of the whole text, when no
hypothesis was recognized. -/
def parseHypotheses (text : Str) (articles : List PubMed.Article) :
    List Hypothesis :=
  let hyps := parseLoop articles (splitNl text) none
  if hyps.isEmpty then
    [{ statement := text.take 200, importance := [], validation := [],
       evidence := [], passedReview := true }]
  else hyps

/-- A plan record built by `PlanningAgent.createPlan`; the methodology text is
the generative call's response. -/
structure Plan where
  hypothesis : Hypothesis
  methodology : Str
  dataSources : List Str
  timeline : Str
deriving DecidableEq

/-- `PlanningAgent.createPlan` with the generative response supplied. -/
def createPlan (h : Hypothesis) (methodology : Str) : Plan :=
  { hypothesis := h
    methodology := methodology
    dataSources := [str "PubMed", str "ClinicalTrials.gov", str "Internal data"]
    timeline := str "Auto-estimated" }

/-- The negative-result flag computed by `ExecutionAgent.run`
(multi-agent.js line 286). -/
def negativeResult (analysis : Str) : Bool :=
  containsSub (str "insufficient") (toLowerL analysis) ||
    containsSub (str "limited evidence") (toLowerL analysis)

/-- The record returned by `ExecutionAgent.run`. -/
structure ExecutionResult where
  plan : Plan
  analysis : Str
  status : Str
  negativeResult : Bool
  timestamp : Str
deriving DecidableEq

/-- `ExecutionAgent.run` with the generative response (`analysis`) and the
clock reading (`timestamp`) supplied. -/
def run (plan : Plan) (analysis timestamp : Str) : ExecutionResult :=
  { plan := plan
    analysis := analysis
    status := str "completed"
    negativeResult := negativeResult analysis
    timestamp := timestamp }

end MultiAgent

namespace Cli

/-- The observable outcome of one `cli.js` process run: the exit code and the
messages printed to the error stream. -/
structure CliOutcome where
  exitCode : Nat
  errStream : List String
deriving DecidableEq

/-- Top-level control flow of `cli.js`: with no arguments the usage text is
printed and `process.exit(1)` is called; otherwise every command branch ends
in a promise whose rejection (or failure result) is caught and printed with
`console.error`, no branch calls `process.exit`, and the process exits with
the default code 0 once the event loop drains.  `topError` is the message of
the caught top-level error of the run, when one occurred. -/
def cliRun (args : List String) (topError : Option String) : CliOutcome :=
  if args.isEmpty then { exitCode := 1, errStream := [] }
  else
    { exitCode := 0
      errStream := match topError with
        | some e => [e]
        | none => [] }

end Cli

namespace Json

/-- The JSON values the pipeline persists through
`MultiAgentResearchSystem.writeState` (multi-agent.js): null, booleans,
numbers, strings, arrays and objects.  Every number the pipeline ever
serializes is integral (the persisted shapes are built from strings,
booleans, arrays and objects only), so numbers are modelled as integers. -/
inductive JVal where
  | null : JVal
  | bool (b : Bool) : JVal
  | num (n : Int) : JVal
  | strv (s : Str) : JVal
  | arr (elems : List JVal) : JVal
  | obj (fields : List (Str × JVal)) : JVal

/-- Opening brace character. -/
def obr : Char := '\x7b'

/-- Closing brace character. -/
def cbr : Char := '\x7d'

/-- Lowercase hexadecimal digit character for a value below 16. -/
def hexDig (n : Nat) : Char :=
  if n < 10 then Char.ofNat (48 + n) else Char.ofNat (87 + n)

/-- The escape sequence `JSON.stringify` emits for one string character:
quotes and backslashes get a two-character escape, the five named control
characters their short form, the remaining control characters a `\u00xx`
form, and every other character stands for itself. -/
def escChar (c : Char) : Str :=
  if c = '"' then ['\\', '"']
  else if c = '\\' then ['\\', '\\']
  else if c = '\x08' then ['\\', 'b']
  else if c = '\x09' then ['\\', 't']
  else if c = '\x0a' then ['\\', 'n']
  else if c = '\x0c' then ['\\', 'f']
  else if c = '\x0d' then ['\\', 'r']
  else if c.toNat < 32 then
    ['\\', 'u', '0', '0', hexDig (c.toNat / 16), hexDig (c.toNat % 16)]
  else [c]

/-- The body of a serialized string literal. -/
def escapeStr (s : Str) : Str := s.foldr (fun c acc => escChar c ++ acc) []

/-- A serialized string literal, quotes included. -/
def strLit (s : Str) : Str := '"' :: escapeStr s ++ ['"']

/-- The digit character of a value below 10. -/
def digitChar (n : Nat) : Char := Char.ofNat (48 + n)

/-- Decimal digit string of a natural number, most significant digit first. -/
def natLit (n : Nat) : Str :=
  if n = 0 then ['0'] else ((Nat.digits 10 n).reverse.map digitChar)

/-- Serialization of an integer, as `JSON.stringify` prints the integral
numbers occurring here. -/
def intLit (n : Int) : Str :=
  if n < 0 then '-' :: natLit n.natAbs else natLit n.toNat

/-- The indentation prefix `JSON.stringify(data, null, 2)` puts before an
element nested at depth `d`. -/
def ind (d : Nat) : Str := List.replicate (2 * d) ' '

mutual

/-- `JSON.stringify(v, null, 2)` of a value whose containing line is indented
at depth `d`. -/
def strVal (d : Nat) : JVal → Str
  | .null => str "null"
  | .bool true => str "true"
  | .bool false => str "false"
  | .num n => intLit n
  | .strv s => strLit s
  | .arr [] => str "[]"
  | .arr (v :: vs) =>
    '[' :: '\n' :: (strItems (d + 1) v vs ++ '\n' :: (ind d ++ [']']))
  | .obj [] => [obr, cbr]
  | .obj ((k, v) :: fs) =>
    obr :: '\n' :: (strFields (d + 1) k v fs ++ '\n' :: (ind d ++ [cbr]))
termination_by v => sizeOf v

/-- Comma-and-newline separated array elements, each on its own indented
line. -/
def strItems (d : Nat) (v : JVal) : List JVal → Str
  | [] => ind d ++ strVal d v
  | w :: ws => ind d ++ strVal d v ++ ',' :: '\n' :: strItems d w ws
termination_by vs => sizeOf v + sizeOf vs

/-- Comma-and-newline separated object members, each `"key": value` on its
own indented line. -/
def strFields (d : Nat) (k : Str) (v : JVal) : List (Str × JVal) → Str
  | [] => ind d ++ strLit k ++ ':' :: ' ' :: strVal d v
  | (k2, v2) :: gs =>
    ind d ++ strLit k ++ ':' :: ' ' :: strVal d v ++ ',' :: '\n' :: strFields d k2 v2 gs
termination_by gs => sizeOf v + sizeOf gs

end

/-- The whitespace `JSON.parse` skips between tokens. -/
def jsonWs (c : Char) : Bool := c = ' ' || c = '\n' || c = '\t' || c = '\x0d'

/-- Skip inter-token whitespace. -/
def skipWs (l : Str) : Str := l.dropWhile jsonWs

/-- Value of a hexadecimal digit character. -/
def hexVal (c : Char) : Option Nat :=
  if '0' ≤ c ∧ c ≤ '9' then some (c.toNat - 48)
  else if 'a' ≤ c ∧ c ≤ 'f' then some (c.toNat - 87)
  else if 'A' ≤ c ∧ c ≤ 'F' then some (c.toNat - 55)
  else none

/-- The character denoted by a single-character escape. -/
def unesc (e : Char) : Option Char :=
  if e = '"' then some '"'
  else if e = '\\' then some '\\'
  else if e = '/' then some '/'
  else if e = 'b' then some '\x08'
  else if e = 'f' then some '\x0c'
  else if e = 'n' then some '\x0a'
  else if e = 'r' then some '\x0d'
  else if e = 't' then some '\x09'
  else none

/-- Decode one escape sequence (the input starts right after the backslash):
the decoded character and how many input characters the escape body spans. -/
def decodeEsc : Str → Option (Char × Nat)
  | [] => none
  | e :: r2 =>
    if e = 'u' then
      match r2 with
      | h1 :: h2 :: h3 :: h4 :: _ =>
        match hexVal h1, hexVal h2, hexVal h3, hexVal h4 with
        | some a, some b, some cc, some dd =>
          some (Char.ofNat (((a * 16 + b) * 16 + cc) * 16 + dd), 5)
        | _, _, _, _ => none
      | _ => none
    else (unesc e).map fun ch => (ch, 1)

/-- Parse the body of a string literal after its opening quote, consuming the
closing quote; returns the decoded characters and the remaining input. -/
def parseStrBody : Str → Option (Str × Str)
  | [] => none
  | c :: r =>
    if c = '"' then some ([], r)
    else if c = '\\' then
      match decodeEsc r with
      | some (ch, k) => (parseStrBody (r.drop k)).map fun pr => (ch :: pr.1, pr.2)
      | none => none
    else (parseStrBody r).map fun pr => (c :: pr.1, pr.2)
termination_by l => l.length
decreasing_by
  all_goals simp only [List.length_cons, List.length_drop]
  all_goals omega

/-- Accumulate the decimal value of a digit string. -/
def foldNat (ds : Str) : Nat := ds.foldl (fun a c => 10 * a + (c.toNat - 48)) 0

/-- Parse an integer (optional minus sign, then digits); fractions and
exponents never occur in the serialized checkpoints modelled here. -/
def parseNum : Str → Option (Int × Str)
  | [] => none
  | c :: r =>
    if c = '-' then
      let ds := r.takeWhile Char.isDigit
      if ds.isEmpty then none
      else some (-(foldNat ds : Int), r.dropWhile Char.isDigit)
    else
      let ds := (c :: r).takeWhile Char.isDigit
      if ds.isEmpty then none
      else some ((foldNat ds : Int), (c :: r).dropWhile Char.isDigit)

mutual

/-- Recursive-descent model of `JSON.parse` on the grammar the serializer
emits, fuelled; returns the value and the remaining input. -/
def parseVal (fuel : Nat) (l : Str) : Option (JVal × Str) :=
  match fuel with
  | 0 => none
  | fuel + 1 =>
    let l := skipWs l
    if l.take 4 = str "null" then some (.null, l.drop 4)
    else if l.take 4 = str "true" then some (.bool true, l.drop 4)
    else if l.take 5 = str "false" then some (.bool false, l.drop 5)
    else
      match l with
      | [] => none
      | c :: rest =>
        if c = '"' then (parseStrBody rest).map fun pr => (.strv pr.1, pr.2)
        else if c = '[' then
          match skipWs rest with
          | ']' :: r2 => some (.arr [], r2)
          | r2 => (parseItems fuel r2).map fun pr => (.arr pr.1, pr.2)
        else if c = obr then
          match skipWs rest with
          | d :: r2 => if d = cbr then some (.obj [], r2)
                       else (parseFields fuel (d :: r2)).map fun pr => (.obj pr.1, pr.2)
          | [] => none
        else (parseNum (c :: rest)).map fun pr => (.num pr.1, pr.2)

/-- Parse the elements of a non-empty array, consuming the closing bracket. -/
def parseItems (fuel : Nat) (l : Str) : Option (List JVal × Str) :=
  match fuel with
  | 0 => none
  | fuel + 1 =>
    match parseVal fuel l with
    | none => none
    | some (v, r) =>
      match skipWs r with
      | ',' :: r2 =>
        match parseItems fuel r2 with
        | none => none
        | some (vs, r3) => some (v :: vs, r3)
      | ']' :: r2 => some ([v], r2)
      | _ => none

/-- Parse the members of a non-empty object, consuming the closing brace. -/
def parseFields (fuel : Nat) (l : Str) : Option (List (Str × JVal) × Str) :=
  match fuel with
  | 0 => none
  | fuel + 1 =>
    match skipWs l with
    | '"' :: r =>
      match parseStrBody r with
      | none => none
      | some (k, r2) =>
        match skipWs r2 with
        | ':' :: r3 =>
          match parseVal fuel r3 with
          | none => none
          | some (v, r4) =>
            match skipWs r4 with
            | ',' :: r5 =>
              match parseFields fuel r5 with
              | none => none
              | some (fs, r6) => some ((k, v) :: fs, r6)
            | d :: r5 => if d = cbr then some ([(k, v)], r5) else none
            | [] => none
        | _ => none
    | _ => none

end

/-- Model of `JSON.parse`: the whole input must be consumed up to trailing
whitespace. -/
def parseJson (l : Str) : Option JVal :=
  match parseVal (l.length + 1) l with
  | none => none
  | some (v, r) => if (skipWs r).isEmpty then some v else none

mutual

/-- Fuel needed by `parseVal` on the serialization of a value: one step plus
the fuel of the nested item parse. -/
def needV : JVal → Nat
  | .null => 1
  | .bool _ => 1
  | .num _ => 1
  | .strv _ => 1
  | .arr [] => 1
  | .arr (v :: vs) => 1 + needI v vs
  | .obj [] => 1
  | .obj ((_, x) :: fs) => 1 + needF x fs
termination_by v => sizeOf v

/-- Fuel needed by `parseItems` on a serialized non-empty element list. -/
def needI (v : JVal) : List JVal → Nat
  | [] => 1 + needV v
  | w :: ws => 1 + max (needV v) (needI w ws)
termination_by vs => sizeOf v + sizeOf vs

/-- Fuel needed by `parseFields` on a serialized non-empty member list. -/
def needF (x : JVal) : List (Str × JVal) → Nat
  | [] => 1 + needV x
  | (_, v2) :: gs => 1 + max (needV x) (needF v2 gs)
termination_by gs => sizeOf x + sizeOf gs

end

/-- The in-memory state `writeState`/`readState` touch: the current project
(its directory path, `null` before `startProject`) and the workspace files,
most recent write first. -/
structure Workspace where
  currentProject : Option Str
  files : List (Str × Str)

/-- `path.join(dir, name)`. -/
def pathJoin (dir name : Str) : Str := dir ++ '/' :: name

/-- `MultiAgentResearchSystem.writeState`: a no-op without a current project,
otherwise `fs.writeFileSync(dir/filename.json, JSON.stringify(data, null, 2))`. -/
def writeState (ws : Workspace) (filename : Str) (data : JVal) : Workspace :=
  match ws.currentProject with
  | none => ws
  | some dir =>
    { ws with files := (pathJoin dir (filename ++ str ".json"), strVal 0 data) :: ws.files }

/-- `MultiAgentResearchSystem.readState`: `null` without a current project or
when the file is missing, otherwise `JSON.parse` of the file contents. -/
def readState (ws : Workspace) (filename : Str) : Option JVal :=
  match ws.currentProject with
  | none => none
  | some dir =>
    match (ws.files.find? fun kv => decide (kv.1 = pathJoin dir (filename ++ str ".json"))) with
    | none => none
    | some kv => parseJson kv.2

end Json

namespace Fixtures

/-- A plain article as `search` would build it: fresh from search, abstract
still empty. -/
def exArticle (p : Str) : PubMed.Article :=
  { pmid := p, title := str "t", authors := [], journal := [], pubDate := [],
    source := [], doi := [], abstract := [], meshTerms := [] }

/-- Eleven search results in which the article at index 10 shares its pmid
with the article at index 0. -/
def exArticles : List PubMed.Article :=
  [exArticle (str "0"), exArticle (str "1"), exArticle (str "2"),
   exArticle (str "3"), exArticle (str "4"), exArticle (str "5"),
   exArticle (str "6"), exArticle (str "7"), exArticle (str "8"),
   exArticle (str "9"), exArticle (str "0")]

/-- An efetch oracle that always answers with a well-formed abstract body. -/
def exNet : PubMed.Net := fun _ => .ok (str "<AbstractText>Found text.</AbstractText>")

/-- A checkpoint value of the shapes the pipeline persists. -/
def exState : Json.JVal :=
  .obj [(str "query", .strv (str "glp1 outcomes")),
        (str "started", .strv (str "2026-10-12T00:00:00.000Z")),
        (str "hits", .num 12),
        (str "flags", .arr [.bool true, .null, .num (-3)]),
        (str "note", .strv (str "line1\nline2 \"quoted\" \x01"))]

/-- A workspace with a current project and no files yet. -/
def exWorkspace : Json.Workspace :=
  { currentProject := some (str "./workspace/project-1"), files := [] }

end Fixtures

/-! Helper lemmas shared by the claim theorems. -/

/-- Both return paths of `getAbstract` copy the requested pmid into the
result. -/
theorem getAbstract_pmid (net : PubMed.Net) (p : Str) :
    (PubMed.getAbstract net p).pmid = p := by
  cases h : net p <;> simp [PubMed.getAbstract, h]

/-- On a non-empty identifier list `search` reduces to the `filterMap` of the
per-identifier loop body. -/
theorem search_some_eq (ids : List Str) (results : Str → Option PubMed.SummaryItem) :
    PubMed.search (some ids) results = ids.filterMap (PubMed.searchItem results) := by
  cases ids with
  | nil => rfl
  | cons a tl => simp [PubMed.search]

/-- When every identifier has a summary record whose `uid` is that same
identifier, the article loop keeps identifiers, order and length. -/
theorem filterMap_searchItem_pmids (results : Str → Option PubMed.SummaryItem) :
    ∀ ids : List Str,
      (∀ id ∈ ids, id ≠ [] ∧ ∃ item, results id = some item ∧ item.uid = some id) →
      (ids.filterMap (PubMed.searchItem results)).map (·.pmid) = ids := by
  intro ids
  induction ids with
  | nil => intro _; rfl
  | cons id tl ih =>
    intro h
    obtain ⟨hne, item, hres, huid⟩ := h id (by simp)
    have hitem : PubMed.searchItem results id = some (PubMed.mkArticle id item) := by
      simp [PubMed.searchItem, hres, huid, List.isEmpty_iff, hne]
    rw [List.filterMap_cons_some hitem, List.map_cons]
    rw [ih fun x hx => h x (by simp [hx])]
    simp [PubMed.mkArticle]

/-- An infix of a mapped list is the image of an infix of the list. -/
theorem exists_infix_of_map_infix {f : Char → Char} {u l : Str}
    (h : u <:+: l.map f) : ∃ w, w <:+: l ∧ w.map f = u := by
  obtain ⟨s, t, hst⟩ := h
  obtain ⟨l₁, l₂, hl, hm₁, hm₂⟩ := List.map_eq_append_iff.mp hst.symm
  obtain ⟨l₃, l₄, hl2, hm₃, hm₄⟩ := List.map_eq_append_iff.mp hm₁
  refine ⟨l₄, ⟨l₃, l₂, ?_⟩, hm₄⟩
  rw [hl, hl2]

/-- C1: for a search obtaining `n` identifiers, the article sequence has
length `n`, with identifiers from the list in the list's order.  This fails
as stated: an identifier whose esummary record is missing is skipped, so
the sequence can be shorter.  Here one identifier with an empty summary map
yields zero articles. -/
theorem search_alignment_counterexample :
    ¬((PubMed.search (some [str "1"]) fun _ => none).length = 1) := by decide

/-- C1 (amended): when every returned identifier has an esummary record whose
`uid` equals that identifier, the article sequence mirrors the identifier
list exactly: same length, pmids from the list, in the list's order. -/
theorem search_alignment (ids : List Str) (results : Str → Option PubMed.SummaryItem)
    (h : ∀ id ∈ ids, id ≠ [] ∧ ∃ item, results id = some item ∧ item.uid = some id) :
    (PubMed.search (some ids) results).map (·.pmid) = ids ∧
    (PubMed.search (some ids) results).length = ids.length ∧
    ∀ a ∈ PubMed.search (some ids) results, a.pmid ∈ ids := by
  have hmap : (PubMed.search (some ids) results).map (·.pmid) = ids := by
    rw [search_some_eq]; exact filterMap_searchItem_pmids results ids h
  refine ⟨hmap, ?_, ?_⟩
  · have := congrArg List.length hmap
    simpa using this
  · intro a ha
    rw [← hmap]
    exact List.mem_map_of_mem (·.pmid) ha

/-- C1 witness: two identifiers whose summary records match give two articles
aligned with the identifier list. -/
theorem search_alignment_witness :
    (PubMed.search (some [str "11", str "22"])
        (fun id => some { uid := some id, title := none, authors := none,
                          fulljournalname := none, pubdate := none, source := none,
                          elocationid := none, meshheadings := none })).map (·.pmid)
      = [str "11", str "22"] :=
  (search_alignment [str "11", str "22"] _ (by
    intro id hid
    refine ⟨?_, _, rfl, rfl⟩
    simp only [List.mem_cons, List.not_mem_nil, or_false] at hid
    rcases hid with h | h <;> (subst h; decide))).1

/-- C3: `getAbstract` never raises, and is claimed to set the `error` field
whenever the abstract cannot be produced, including markup from which no
abstract can be extracted.  This fails: on a successful response with
unparseable markup the abstract is the empty string but no `error` field is
set (the error field exists only on the exception path). -/
theorem getAbstract_error_counterexample :
    (PubMed.getAbstract (fun _ => .ok (str "garbage")) (str "1")).abstract = [] ∧
    (PubMed.getAbstract (fun _ => .ok (str "garbage")) (str "1")).error = none := by
  decide

/-- C3 (amended): `getAbstract` is total; on a failed request it returns the
input pmid, an empty abstract and the failure message in `error`; on a
successful response it returns the regex-extracted abstract (empty when
nothing can be extracted) and leaves `error` unset. -/
theorem getAbstract_failure_shape (net : PubMed.Net) (pmid : Str) :
    (PubMed.getAbstract net pmid).pmid = pmid ∧
    ((PubMed.getAbstract net pmid).error =
      match net pmid with
      | .error e => some e
      | .ok _ => none) ∧
    ((PubMed.getAbstract net pmid).abstract =
      match net pmid with
      | .error _ => []
      | .ok d => PubMed.extractAbstract d) := by
  cases h : net pmid <;> simp [PubMed.getAbstract, h]

/-- C10: `getAbstracts` returns one record per input pmid, in input order,
with the i-th record carrying the i-th pmid, also when a fetch fails. -/
theorem getAbstracts_aligned (net : PubMed.Net) (pmids : List Str) :
    (PubMed.getAbstracts net pmids).length = pmids.length ∧
    (PubMed.getAbstracts net pmids).map (·.pmid) = pmids ∧
    ∀ i, i < pmids.length →
      ((PubMed.getAbstracts net pmids).getD i default).pmid = pmids.getD i [] := by
  have hmap : (PubMed.getAbstracts net pmids).map (·.pmid) = pmids := by
    unfold PubMed.getAbstracts
    rw [List.map_map]
    have : ((·.pmid) ∘ PubMed.getAbstract net) = id :=
      funext fun p => getAbstract_pmid net p
    rw [this, List.map_id]
  refine ⟨by simp [PubMed.getAbstracts], hmap, ?_⟩
  intro i hi
  unfold PubMed.getAbstracts
  rw [List.getD_eq_getElem?_getD, List.getD_eq_getElem?_getD,
    List.getElem?_map]
  rw [List.getElem?_eq_getElem hi]
  simp [getAbstract_pmid]

/-- C4: with zero articles from the search, `research` returns the failure
object with the exact message "No articles found for query", performing no
generative call and no output write. -/
theorem research_no_articles (searchRes : Agent.SearchKind → Except Str (List PubMed.Article))
    (venice : Agent.VeniceMethod → Str) (output : Agent.OutputKind → Str)
    (query taskType : Str) (o : Agent.Options)
    (h : searchRes (Agent.searchKindOf o) = .ok []) :
    Agent.research searchRes venice output query taskType o =
      { success := false, error := some (str "No articles found for query"),
        query := none, taskType := none, articles := [], summary := none,
        outputPath := none, veniceCalls := 0, outputWrites := 0 } := by
  simp [Agent.research, h]

/-- C4 witness: a concrete empty search. -/
theorem research_no_articles_witness :
    Agent.research (fun _ => .ok []) (fun _ => []) (fun _ => [])
        (str "semaglutide") (str "summary") {} =
      { success := false, error := some (str "No articles found for query"),
        query := none, taskType := none, articles := [], summary := none,
        outputPath := none, veniceCalls := 0, outputWrites := 0 } :=
  research_no_articles _ _ _ _ _ _ rfl

/-- C5: when both `clinicalOnly` and `recentYears` are set (truthy), the
clinical branch wins: the search kind is clinical, not recent, and `research`
behaves as if only the clinical search outcome existed, because the flags are
tested in clinical-then-recency if/else-if order. -/
theorem research_clinical_precedence (o : Agent.Options)
    (h1 : o.clinicalOnly = true) (h2 : Agent.truthyNum o.recentYears = true) :
    Agent.searchKindOf o = .clinical ∧
    Agent.searchKindOf o ≠ .recent ∧
    ∀ searchRes venice output query taskType,
      Agent.research searchRes venice output query taskType o =
        Agent.research (fun _ => searchRes .clinical) venice output query taskType o := by
  refine ⟨by simp [Agent.searchKindOf, h1], by simp [Agent.searchKindOf, h1], ?_⟩
  intro searchRes venice output query taskType
  simp [Agent.research, Agent.searchKindOf, h1]

/-- C5 witness: both flags set on a concrete options object. -/
theorem research_clinical_precedence_witness :
    Agent.searchKindOf { clinicalOnly := true, recentYears := some 3 } =
      Agent.SearchKind.clinical :=
  (research_clinical_precedence { clinicalOnly := true, recentYears := some 3 }
    rfl (by decide)).1

/-- A trigger-free line keeps the parsing loop in its no-candidate state. -/
theorem parseLoop_none_of_no_trigger (articles : List PubMed.Article) :
    ∀ lines : List Str,
      (∀ l ∈ lines, MultiAgent.hypTrigger (trimL l) = false) →
      MultiAgent.parseLoop articles lines none = [] := by
  intro lines
  induction lines with
  | nil => intro _; rfl
  | cons l tl ih =>
    intro h
    have hl := h l (by simp)
    simp only [MultiAgent.parseLoop, hl]
    simp only [Bool.false_eq_true, if_false]
    exact ih fun x hx => h x (by simp [hx])

/-- C6: on text in which no trimmed line starts with list numbering and no
line contains "hypothesis" case-insensitively, `parseHypotheses` yields
exactly the single fallback hypothesis: the first 200 characters of the whole
text, with `passedReview` true. -/
theorem parseHypotheses_fallback (text : Str) (articles : List PubMed.Article)
    (h : ∀ l ∈ MultiAgent.splitNl text,
        MultiAgent.numberedStart (trimL l) = false ∧
        containsSub (str "hypothesis") (toLowerL (trimL l)) = false) :
    MultiAgent.parseHypotheses text articles =
      [{ statement := text.take 200, importance := [], validation := [],
         evidence := [], passedReview := true }] := by
  unfold MultiAgent.parseHypotheses
  rw [parseLoop_none_of_no_trigger articles _ fun l hl => by
    have := h l hl
    simp [MultiAgent.hypTrigger, this.1, this.2]]
  rfl

/-- C6 witness: a concrete trigger-free text. -/
theorem parseHypotheses_fallback_witness :
    MultiAgent.parseHypotheses (str "a plain note\nabout evidence gaps") [] =
      [{ statement := (str "a plain note\nabout evidence gaps").take 200,
         importance := [], validation := [], evidence := [],
         passedReview := true }] :=
  parseHypotheses_fallback _ [] (by decide)

/-- C7: the negative-result flag of `ExecutionAgent.run` is true whenever the
analysis contains "insufficient evidence" in any letter case, and false when
the analysis contains neither "insufficient" nor "limited evidence"
case-insensitively. -/
theorem run_negativeResult (plan : MultiAgent.Plan) (analysis ts : Str) :
    ((∃ u, u <:+: analysis ∧ toLowerL u = str "insufficient evidence") →
      (MultiAgent.run plan analysis ts).negativeResult = true) ∧
    ((¬∃ u, u <:+: analysis ∧ toLowerL u = str "insufficient") →
      (¬∃ u, u <:+: analysis ∧ toLowerL u = str "limited evidence") →
      (MultiAgent.run plan analysis ts).negativeResult = false) := by
  constructor
  · rintro ⟨u, hu, hlow⟩
    have h1 : str "insufficient evidence" <:+: toLowerL analysis := by
      rw [← hlow]
      exact hu.map Char.toLower
    have h2 : str "insufficient" <:+: str "insufficient evidence" := by decide
    have : containsSub (str "insufficient") (toLowerL analysis) = true := by
      simp only [containsSub, decide_eq_true_eq]
      exact h2.trans h1
    simp [MultiAgent.run, MultiAgent.negativeResult, this]
  · intro h1 h2
    have c1 : containsSub (str "insufficient") (toLowerL analysis) = false := by
      rw [Bool.eq_false_iff]
      intro hc
      simp only [containsSub, decide_eq_true_eq] at hc
      obtain ⟨w, hw, hmap⟩ := exists_infix_of_map_infix hc
      exact h1 ⟨w, hw, hmap⟩
    have c2 : containsSub (str "limited evidence") (toLowerL analysis) = false := by
      rw [Bool.eq_false_iff]
      intro hc
      simp only [containsSub, decide_eq_true_eq] at hc
      obtain ⟨w, hw, hmap⟩ := exists_infix_of_map_infix hc
      exact h2 ⟨w, hw, hmap⟩
    simp [MultiAgent.run, MultiAgent.negativeResult, c1, c2]

/-- C7 witness: a mixed-case trigger phrase sets the flag; a neutral analysis
leaves it unset. -/
theorem run_negativeResult_witness :
    (MultiAgent.run (MultiAgent.createPlan
        { statement := str "s", importance := [], validation := [],
          evidence := [], passedReview := true } (str "m"))
      (str "There is Insufficient Evidence for this.") (str "ts")).negativeResult = true ∧
    (MultiAgent.run (MultiAgent.createPlan
        { statement := str "s", importance := [], validation := [],
          evidence := [], passedReview := true } (str "m"))
      (str "The effect is strong and consistent.") (str "ts")).negativeResult = false := by
  constructor
  · exact (run_negativeResult _ _ _).1
      ⟨str "Insufficient Evidence", by decide, by decide⟩
  · refine (run_negativeResult _ _ _).2 ?_ ?_
    · rintro ⟨u, hu, hlow⟩
      have : str "insufficient" <:+: toLowerL (str "The effect is strong and consistent.") := by
        rw [← hlow]; exact hu.map Char.toLower
      revert this
      decide
    · rintro ⟨u, hu, hlow⟩
      have : str "limited evidence" <:+: toLowerL (str "The effect is strong and consistent.") := by
        rw [← hlow]; exact hu.map Char.toLower
      revert this
      decide

/-- C8: the CLI is claimed to exit 1 both on missing arguments and on caught
top-level errors.  This fails: no catch handler calls `process.exit`, so a
run whose error is caught and printed still exits with the default code 0. -/
theorem cliRun_exit_counterexample :
    (Cli.cliRun ["research", "glp1"] (some "boom")).errStream = ["boom"] ∧
    ¬((Cli.cliRun ["research", "glp1"] (some "boom")).exitCode = 1) := by
  constructor
  · rfl
  · decide

/-- C8 (amended): the process exits 1 exactly on missing arguments; with
arguments present it exits 0 both on success and when a top-level error is
caught and printed to the error stream. -/
theorem cliRun_exit_codes (args : List String) (topError : Option String) :
    (Cli.cliRun args topError).exitCode = (if args.isEmpty then 1 else 0) ∧
    (Cli.cliRun args topError).errStream = (if args.isEmpty then none else topError).toList := by
  cases args <;> cases topError <;> simp [Cli.cliRun]

/-- Looking up a fetched pmid among the fetched records yields that pmid's
fetched record (the first match has the same pmid, and `getAbstract` depends
only on the pmid). -/
theorem find?_getAbstracts_of_mem (net : PubMed.Net) (q : Str) :
    ∀ pmids : List Str, q ∈ pmids →
      (PubMed.getAbstracts net pmids).find? (fun ab => decide (ab.pmid = q)) =
        some (PubMed.getAbstract net q) := by
  intro pmids
  induction pmids with
  | nil => intro h; cases h
  | cons p tl ih =>
    intro h
    show ((PubMed.getAbstract net p :: PubMed.getAbstracts net tl).find? _) = _
    by_cases hpq : p = q
    · subst hpq
      rw [List.find?_cons_of_pos _ (by simp [getAbstract_pmid])]
    · rw [List.find?_cons_of_neg _ (by simp [getAbstract_pmid, hpq])]
      refine ih ?_
      rcases List.mem_cons.mp h with h1 | h1
      · exact absurd h1.symm hpq
      · exact h1

/-- Looking up a pmid absent from the fetched set finds nothing. -/
theorem find?_getAbstracts_of_not_mem (net : PubMed.Net) (q : Str) :
    ∀ pmids : List Str, q ∉ pmids →
      (PubMed.getAbstracts net pmids).find? (fun ab => decide (ab.pmid = q)) = none := by
  intro pmids
  induction pmids with
  | nil => intro _; rfl
  | cons p tl ih =>
    intro h
    show ((PubMed.getAbstract net p :: PubMed.getAbstracts net tl).find? _) = _
    rw [List.find?_cons_of_neg _ (by simp [getAbstract_pmid]; rintro rfl; simp at h)]
    exact ih fun hm => h (by simp [hm])

/-- The per-article merge step of `searchFull`, at each position of the input
list. -/
theorem searchFull_getElem? (net : PubMed.Net) (articles : List PubMed.Article) (i : Nat) :
    (PubMed.searchFull net articles)[i]? = (articles[i]?).map fun a =>
      match (PubMed.getAbstracts net (PubMed.enrichPmids articles)).find?
          (fun ab => decide (ab.pmid = a.pmid)) with
      | some ab => { a with abstract := ab.abstract }
      | none => a := by
  unfold PubMed.searchFull
  rw [List.getElem?_map]

/-- C2: `searchFull` is claimed to leave every article at index ten or beyond
with an empty abstract.  This fails when an article beyond the cap shares its
pmid with one of the first ten: with eleven search results where index 10
repeats the pmid of index 0, the article at index 10 receives the fetched
abstract. -/
theorem searchFull_cap_counterexample :
    (PubMed.searchFull Fixtures.exNet Fixtures.exArticles).length = 11 ∧
    ¬(((PubMed.searchFull Fixtures.exNet Fixtures.exArticles).getD 10 default).abstract
        = []) := by
  decide

/-- C2 (amended): `searchFull` fetches abstracts for exactly the first
`min(10, n)` articles' pmids (a fixed cap of ten, from `slice(0, 10)`); each
of the first ten articles ends with its pmid's fetched abstract, and an
article at index ten or beyond keeps its empty abstract unless its pmid
equals one of the fetched pmids, in which case it receives that fetched
abstract as well. -/
theorem searchFull_cap (net : PubMed.Net) (articles : List PubMed.Article)
    (habs : ∀ a ∈ articles, a.abstract = []) :
    (PubMed.searchFull net articles).length = articles.length ∧
    (PubMed.enrichPmids articles).length = min 10 articles.length ∧
    (∀ i, i < articles.length → i < 10 →
      (PubMed.enrichPmids articles).getD i [] = (articles.getD i default).pmid) ∧
    (∀ i, i < articles.length → i < 10 →
      ((PubMed.searchFull net articles).getD i default).abstract
        = (PubMed.getAbstract net ((articles.getD i default).pmid)).abstract) ∧
    (∀ i, i < articles.length → 10 ≤ i →
      (articles.getD i default).pmid ∉ PubMed.enrichPmids articles →
      ((PubMed.searchFull net articles).getD i default).abstract = []) := by
  refine ⟨by simp [PubMed.searchFull], by simp [PubMed.enrichPmids], ?_, ?_, ?_⟩
  · intro i hin hi10
    unfold PubMed.enrichPmids
    rw [List.getD_eq_getElem?_getD, List.getD_eq_getElem?_getD, List.getElem?_map,
      List.getElem?_take_of_lt hi10, List.getElem?_eq_getElem hin]
    rfl
  · intro i hin hi10
    have hmem : articles[i].pmid ∈ PubMed.enrichPmids articles := by
      unfold PubMed.enrichPmids
      refine List.mem_map_of_mem _ ?_
      have h1 : (articles.take 10)[i]? = some articles[i] := by
        rw [List.getElem?_take_of_lt hi10, List.getElem?_eq_getElem hin]
      obtain ⟨hlt, heq⟩ := List.getElem?_eq_some_iff.mp h1
      exact heq ▸ List.getElem_mem hlt
    rw [List.getD_eq_getElem?_getD, searchFull_getElem?, List.getElem?_eq_getElem hin]
    rw [List.getD_eq_getElem?_getD, List.getElem?_eq_getElem hin]
    simp only [Option.map_some', Option.getD_some]
    rw [find?_getAbstracts_of_mem net _ _ hmem]
  · intro i hin _ hnot
    rw [List.getD_eq_getElem?_getD, List.getElem?_eq_getElem hin] at hnot
    simp only [Option.getD_some] at hnot
    rw [List.getD_eq_getElem?_getD, searchFull_getElem?, List.getElem?_eq_getElem hin]
    simp only [Option.map_some', Option.getD_some]
    rw [find?_getAbstracts_of_not_mem net _ _ hnot]
    exact habs _ (List.getElem_mem hin)

/-- C2 witness: on the concrete eleven articles, article 0 ends with its
fetched abstract. -/
theorem searchFull_cap_witness :
    ((PubMed.searchFull Fixtures.exNet Fixtures.exArticles).getD 0 default).abstract
      = (PubMed.getAbstract Fixtures.exNet
          ((Fixtures.exArticles.getD 0 default).pmid)).abstract :=
  (searchFull_cap Fixtures.exNet Fixtures.exArticles (by decide)).2.2.2.1
    0 (by decide) (by decide)

/-! Helper lemmas for the checkpoint serialization round trip (claim C9). -/

namespace Json

/-- A digit character is none of the JSON whitespace characters. -/
theorem jsonWs_of_isDigit {c : Char} (h : c.isDigit = true) : jsonWs c = false := by
  by_contra hw
  rw [Bool.not_eq_false] at hw
  simp only [jsonWs, Bool.or_eq_true, decide_eq_true_eq] at hw
  rcases hw with ((h1 | h1) | h1) | h1 <;> (subst h1; exact absurd h (by decide))

/-- A digit character differs from any fixed non-digit character. -/
theorem ne_of_isDigit {c d : Char} (h : c.isDigit = true) (hd : d.isDigit = false) :
    c ≠ d := by
  intro he
  subst he
  rw [h] at hd
  cases hd

/-- Decimal digit characters decode back to their value. -/
theorem toNat_digitChar {d : Nat} (h : d < 10) : (digitChar d).toNat - 48 = d := by
  interval_cases d <;> decide

/-- Decimal digit characters satisfy `Char.isDigit`. -/
theorem isDigit_digitChar {d : Nat} (h : d < 10) : (digitChar d).isDigit = true := by
  interval_cases d <;> decide

/-- Hexadecimal digit characters decode back to their value. -/
theorem hexVal_hexDig {d : Nat} (h : d < 16) : hexVal (hexDig d) = some d := by
  interval_cases d <;> decide

/-- Skipping whitespace drops an all-whitespace prefix. -/
theorem skipWs_append_of_all {pre : Str} (h : pre.all jsonWs = true) (l : Str) :
    skipWs (pre ++ l) = skipWs l := by
  induction pre with
  | nil => rfl
  | cons c cs ih =>
    rw [List.all_cons, Bool.and_eq_true] at h
    simp only [List.cons_append, skipWs, List.dropWhile_cons, h.1, if_true]
    exact ih h.2

/-- Skipping whitespace stops at a non-whitespace head. -/
theorem skipWs_cons_of_neg {c : Char} (h : jsonWs c = false) (l : Str) :
    skipWs (c :: l) = c :: l := by
  simp only [skipWs, List.dropWhile_cons, h]
  simp

/-- Every list is an all-whitespace prefix followed by its whitespace-skipped
remainder. -/
theorem exists_ws_decomp (l : Str) :
    ∃ pre, l = pre ++ skipWs l ∧ pre.all jsonWs = true := by
  refine ⟨l.takeWhile jsonWs, (List.takeWhile_append_dropWhile jsonWs l).symm, ?_⟩
  rw [List.all_eq_true]
  intro c hc
  exact List.mem_takeWhile_imp hc

/-- The indentation emitted by the serializer is all whitespace. -/
theorem ind_all_ws (d : Nat) : (ind d).all jsonWs = true := by
  rw [List.all_eq_true]
  intro c hc
  rw [List.eq_of_mem_replicate hc]
  rfl

/-- `parseVal` ignores a leading all-whitespace prefix. -/
theorem parseVal_ws {pre : Str} (h : pre.all jsonWs = true) (fuel : Nat) (l : Str) :
    parseVal fuel (pre ++ l) = parseVal fuel l := by
  cases fuel with
  | zero => rfl
  | succ n =>
    rw [parseVal, parseVal, skipWs_append_of_all h]

/-- `parseItems` ignores a leading all-whitespace prefix. -/
theorem parseItems_ws {pre : Str} (h : pre.all jsonWs = true) (fuel : Nat) (l : Str) :
    parseItems fuel (pre ++ l) = parseItems fuel l := by
  cases fuel with
  | zero => rfl
  | succ n =>
    rw [parseItems, parseItems, parseVal_ws h]

/-- `parseFields` ignores a leading all-whitespace prefix. -/
theorem parseFields_ws {pre : Str} (h : pre.all jsonWs = true) (fuel : Nat) (l : Str) :
    parseFields fuel (pre ++ l) = parseFields fuel l := by
  cases fuel with
  | zero => rfl
  | succ n =>
    rw [parseFields, parseFields, skipWs_append_of_all h]

/-- `parseItems` is unchanged by pre-skipping whitespace. -/
theorem parseItems_skipWs (fuel : Nat) (l : Str) :
    parseItems fuel (skipWs l) = parseItems fuel l := by
  obtain ⟨pre, hdec, hall⟩ := exists_ws_decomp l
  conv_rhs => rw [hdec]
  rw [parseItems_ws hall]

/-- Parsing a string-literal body undoes the serializer's escaping. -/
theorem parseStrBody_escape (s : Str) :
    ∀ rest, parseStrBody (escapeStr s ++ '"' :: rest) = some (s, rest) := by
  induction s with
  | nil =>
    intro rest
    show parseStrBody ('"' :: rest) = some ([], rest)
    rw [parseStrBody]
    simp
  | cons c cs ih =>
    intro rest
    show parseStrBody ((escChar c ++ escapeStr cs) ++ '"' :: rest) = some (c :: cs, rest)
    rw [List.append_assoc]
    by_cases h1 : c = '"'
    · subst h1
      rw [show escChar '"' = ['\\', '"'] from rfl, List.cons_append, List.cons_append,
        List.nil_append, parseStrBody]
      simp [decodeEsc, unesc, ih rest]
    · by_cases h2 : c = '\\'
      · subst h2
        rw [show escChar '\\' = ['\\', '\\'] from rfl, List.cons_append, List.cons_append,
          List.nil_append, parseStrBody]
        simp [decodeEsc, unesc, ih rest]
      · by_cases h3 : c = '\x08'
        · subst h3
          rw [show escChar '\x08' = ['\\', 'b'] from rfl, List.cons_append, List.cons_append,
            List.nil_append, parseStrBody]
          simp [decodeEsc, unesc, ih rest]
        · by_cases h4 : c = '\x09'
          · subst h4
            rw [show escChar '\x09' = ['\\', 't'] from rfl, List.cons_append, List.cons_append,
              List.nil_append, parseStrBody]
            simp [decodeEsc, unesc, ih rest]
          · by_cases h5 : c = '\x0a'
            · subst h5
              rw [show escChar '\x0a' = ['\\', 'n'] from rfl, List.cons_append, List.cons_append,
                List.nil_append, parseStrBody]
              simp [decodeEsc, unesc, ih rest]
            · by_cases h6 : c = '\x0c'
              · subst h6
                rw [show escChar '\x0c' = ['\\', 'f'] from rfl, List.cons_append,
                  List.cons_append, List.nil_append, parseStrBody]
                simp [decodeEsc, unesc, ih rest]
              · by_cases h7 : c = '\x0d'
                · subst h7
                  rw [show escChar '\x0d' = ['\\', 'r'] from rfl, List.cons_append,
                    List.cons_append, List.nil_append, parseStrBody]
                  simp [decodeEsc, unesc, ih rest]
                · by_cases h8 : c.toNat < 32
                  · rw [show escChar c =
                        ['\\', 'u', '0', '0', hexDig (c.toNat / 16), hexDig (c.toNat % 16)] from by
                      simp only [escChar, if_neg h1, if_neg h2, if_neg h3, if_neg h4,
                        if_neg h5, if_neg h6, if_neg h7, if_pos h8]]
                    rw [List.cons_append, List.cons_append, List.cons_append, List.cons_append,
                      List.cons_append, List.cons_append, List.nil_append, parseStrBody]
                    have hd16 : c.toNat / 16 < 16 := by omega
                    have hm16 : c.toNat % 16 < 16 := by omega
                    have h0 : hexVal '0' = some 0 := by decide
                    have hval : (c.toNat / 16) * 16 + c.toNat % 16 = c.toNat := by omega
                    have hval2 : 16 * (c.toNat / 16) + c.toNat % 16 = c.toNat := by omega
                    simp [decodeEsc, h0, hexVal_hexDig hd16, hexVal_hexDig hm16, hval, hval2,
                      ih rest]
                  · rw [show escChar c = [c] from by
                      simp only [escChar, if_neg h1, if_neg h2, if_neg h3, if_neg h4,
                        if_neg h5, if_neg h6, if_neg h7, if_neg h8]]
                    rw [List.cons_append, List.nil_append, parseStrBody]
                    simp only [if_neg h1, if_neg h2, ih rest, Option.map_some']

/-- Every character of a serialized natural number is a decimal digit. -/
theorem natLit_all_digits (n : Nat) : ∀ c ∈ natLit n, c.isDigit = true := by
  intro c hc
  unfold natLit at hc
  by_cases h : n = 0
  · rw [if_pos h] at hc
    simp at hc
    subst hc
    decide
  · rw [if_neg h] at hc
    obtain ⟨d, hd, rfl⟩ := List.mem_map.mp hc
    have hd10 : d < 10 :=
      Nat.digits_lt_base (by norm_num) (List.mem_reverse.mp hd)
    exact isDigit_digitChar hd10

/-- A serialized natural number starts with a decimal digit. -/
theorem natLit_head (n : Nat) : ∃ c cs, natLit n = c :: cs ∧ c.isDigit = true := by
  have hne : natLit n ≠ [] := by
    unfold natLit
    by_cases h : n = 0
    · simp [h]
    · rw [if_neg h]
      simp [Nat.digits_ne_nil_iff_ne_zero.mpr h]
  obtain ⟨c, cs, hcs⟩ := List.exists_cons_of_ne_nil hne
  exact ⟨c, cs, hcs, natLit_all_digits n c (by rw [hcs]; simp)⟩

/-- Splitting a digit run followed by a non-digit remainder. -/
theorem takeWhile_digits_append {l rest : Str} (hall : ∀ c ∈ l, c.isDigit = true)
    (hrest : (rest.headD ' ').isDigit = false) :
    (l ++ rest).takeWhile Char.isDigit = l ∧
    (l ++ rest).dropWhile Char.isDigit = rest := by
  induction l with
  | nil =>
    cases rest with
    | nil => exact ⟨rfl, rfl⟩
    | cons r rs =>
      simp only [List.headD_cons] at hrest
      simp [List.takeWhile_cons, List.dropWhile_cons, hrest]
  | cons c cs ih =>
    have hc := hall c (by simp)
    have := ih fun x hx => hall x (by simp [hx])
    simp only [List.cons_append, List.takeWhile_cons, List.dropWhile_cons, hc, if_true]
    exact ⟨by rw [this.1], by rw [this.2]⟩

/-- Decoding the digit characters equals folding the digits themselves. -/
theorem foldl_digitChar (l : List Nat) (hall : ∀ d ∈ l, d < 10) :
    ∀ a : Nat, (l.map digitChar).foldl (fun acc c => 10 * acc + (c.toNat - 48)) a
      = l.foldl (fun acc d => 10 * acc + d) a := by
  induction l with
  | nil => intro a; rfl
  | cons d t ih =>
    intro a
    simp only [List.map_cons, List.foldl_cons]
    rw [toNat_digitChar (hall d (by simp))]
    exact ih (fun x hx => hall x (by simp [hx])) _

/-- Folding digits most-significant-first computes the number they denote. -/
theorem foldl_reverse_ofDigits (l : List Nat) :
    ∀ a : Nat, l.reverse.foldl (fun acc d => 10 * acc + d) a
      = a * 10 ^ l.length + Nat.ofDigits 10 l := by
  induction l with
  | nil => intro a; simp [Nat.ofDigits]
  | cons d t ih =>
    intro a
    rw [List.reverse_cons, List.foldl_append, ih a]
    simp only [List.foldl_cons, List.foldl_nil, List.length_cons, Nat.ofDigits_cons]
    ring

/-- The decimal decode of a serialized natural number is that number. -/
theorem foldNat_natLit (n : Nat) : foldNat (natLit n) = n := by
  unfold foldNat natLit
  by_cases h : n = 0
  · subst h; decide
  · rw [if_neg h]
    rw [foldl_digitChar _ (fun d hd => Nat.digits_lt_base (by norm_num) (List.mem_reverse.mp hd))]
    rw [foldl_reverse_ofDigits]
    simp [Nat.ofDigits_digits]

/-- Taking one more character than a cons keeps its head, so the take cannot
equal a list with a different head. -/
theorem take_succ_ne {c c2 : Char} {X Y : Str} (h : c ≠ c2) (k : Nat) :
    (c :: X).take (k + 1) ≠ c2 :: Y := by
  rw [List.take_succ_cons]
  intro he
  injection he with h1 _
  exact h h1

/-- `parseNum` undoes `intLit` when the remainder does not begin with a
digit. -/
theorem parseNum_intLit (n : Int) (rest : Str)
    (hrest : (rest.headD ' ').isDigit = false) :
    parseNum (intLit n ++ rest) = some (n, rest) := by
  unfold intLit
  by_cases hn : n < 0
  · rw [if_pos hn]
    obtain ⟨ht, hd⟩ := takeWhile_digits_append (natLit_all_digits n.natAbs) hrest
    rw [List.cons_append, parseNum, if_pos rfl, ht, hd]
    obtain ⟨c, cs, hcs, hdig⟩ := natLit_head n.natAbs
    rw [hcs]
    simp only [List.isEmpty_cons, Bool.false_eq_true, if_false]
    rw [← hcs, foldNat_natLit]
    have hval : -((n.natAbs : Nat) : Int) = n := by omega
    rw [hval]
  · rw [if_neg hn]
    obtain ⟨ht, hd⟩ := takeWhile_digits_append (natLit_all_digits n.toNat) hrest
    obtain ⟨c, cs, hcs, hdig⟩ := natLit_head n.toNat
    rw [hcs] at ht hd ⊢
    rw [List.cons_append] at ht hd ⊢
    rw [parseNum, if_neg (ne_of_isDigit hdig (by decide)), ht, hd]
    simp only [List.isEmpty_cons, Bool.false_eq_true, if_false]
    rw [← hcs, foldNat_natLit]
    have hval : ((n.toNat : Nat) : Int) = n := by omega
    rw [hval]

/-- Every serialized value starts with a non-whitespace character other than
a closing bracket. -/
theorem strVal_head_ok (d : Nat) (v : JVal) :
    ∃ c cs, strVal d v = c :: cs ∧ jsonWs c = false ∧ c ≠ ']' := by
  cases v with
  | null => exact ⟨'n', str "ull", by rw [strVal]; decide, by decide, by decide⟩
  | bool b =>
    cases b with
    | true => exact ⟨'t', str "rue", by rw [strVal]; decide, by decide, by decide⟩
    | false => exact ⟨'f', str "alse", by rw [strVal]; decide, by decide, by decide⟩
  | num n =>
    by_cases hn : n < 0
    · refine ⟨'-', natLit n.natAbs, ?_, by decide, by decide⟩
      rw [strVal]
      unfold intLit
      rw [if_pos hn]
    · obtain ⟨c, cs, hcs, hdig⟩ := natLit_head n.toNat
      refine ⟨c, cs, ?_, jsonWs_of_isDigit hdig, ne_of_isDigit hdig (by decide)⟩
      rw [strVal]
      unfold intLit
      rw [if_neg hn, hcs]
  | strv s =>
    exact ⟨'"', escapeStr s ++ ['"'], by rw [strVal]; rfl, by decide, by decide⟩
  | arr a =>
    cases a with
    | nil => exact ⟨'[', [']'], by rw [strVal]; decide, by decide, by decide⟩
    | cons v vs =>
      exact ⟨'[', '\n' :: (strItems (d + 1) v vs ++ '\n' :: (ind d ++ [']'])),
        by rw [strVal], by decide, by decide⟩
  | obj fs =>
    cases fs with
    | nil => exact ⟨obr, [cbr], by rw [strVal], by decide, by decide⟩
    | cons f gs =>
      exact ⟨obr, '\n' :: (strFields (d + 1) f.1 f.2 gs ++ '\n' :: (ind d ++ [cbr])),
        by rw [strVal], by decide, by decide⟩

/-- A serialized integer starts with a minus sign or a digit: never with
whitespace, a literal keyword head, a quote, a bracket or a brace. -/
theorem intLit_head (n : Int) :
    ∃ c cs, intLit n = c :: cs ∧ jsonWs c = false ∧ c ≠ 'n' ∧ c ≠ 't' ∧ c ≠ 'f' ∧
      c ≠ '"' ∧ c ≠ '[' ∧ c ≠ obr := by
  unfold intLit
  by_cases hn : n < 0
  · exact ⟨'-', natLit n.natAbs, by rw [if_pos hn], by decide, by decide, by decide,
      by decide, by decide, by decide, by decide⟩
  · obtain ⟨c, cs, hcs, hdig⟩ := natLit_head n.toNat
    exact ⟨c, cs, by rw [if_neg hn, hcs], jsonWs_of_isDigit hdig,
      ne_of_isDigit hdig (by decide), ne_of_isDigit hdig (by decide),
      ne_of_isDigit hdig (by decide), ne_of_isDigit hdig (by decide),
      ne_of_isDigit hdig (by decide), ne_of_isDigit hdig (by decide)⟩

/-- A serialized item list is the indentation, the first serialized element
and a (possibly empty) tail. -/
theorem strItems_decomp (d : Nat) (v : JVal) (vs : List JVal) :
    ∃ R, strItems d v vs = ind d ++ (strVal d v ++ R) := by
  cases vs with
  | nil => exact ⟨[], by rw [strItems, List.append_nil]⟩
  | cons w ws =>
    exact ⟨',' :: '\n' :: strItems d w ws, by rw [strItems]; simp [List.append_assoc]⟩

/-- A serialized string literal prepended to a list. -/
theorem strLit_append (s z : Str) :
    strLit s ++ z = '"' :: (escapeStr s ++ '"' :: z) := by
  simp [strLit]

/-- One unfolding of `parseVal` at positive fuel. -/
theorem parseVal_succ (f : Nat) (l : Str) :
    parseVal (f + 1) l =
      (let l2 := skipWs l
       if l2.take 4 = str "null" then some (.null, l2.drop 4)
       else if l2.take 4 = str "true" then some (.bool true, l2.drop 4)
       else if l2.take 5 = str "false" then some (.bool false, l2.drop 5)
       else
         match l2 with
         | [] => none
         | c :: rest =>
           if c = '"' then (parseStrBody rest).map fun pr => (.strv pr.1, pr.2)
           else if c = '[' then
             match skipWs rest with
             | ']' :: r2 => some (.arr [], r2)
             | r2 => (parseItems f r2).map fun pr => (.arr pr.1, pr.2)
           else if c = obr then
             match skipWs rest with
             | d2 :: r2 => if d2 = cbr then some (.obj [], r2)
                           else (parseFields f (d2 :: r2)).map fun pr => (.obj pr.1, pr.2)
             | [] => none
           else (parseNum (c :: rest)).map fun pr => (.num pr.1, pr.2)) := rfl

/-- One unfolding of `parseItems` at positive fuel. -/
theorem parseItems_succ (f : Nat) (l : Str) :
    parseItems (f + 1) l =
      (match parseVal f l with
       | none => none
       | some (v, r) =>
         match skipWs r with
         | ',' :: r2 =>
           match parseItems f r2 with
           | none => none
           | some (vs, r3) => some (v :: vs, r3)
         | ']' :: r2 => some ([v], r2)
         | _ => none) := rfl

/-- One unfolding of `parseFields` at positive fuel. -/
theorem parseFields_succ (f : Nat) (l : Str) :
    parseFields (f + 1) l =
      (match skipWs l with
       | '"' :: r =>
         match parseStrBody r with
         | none => none
         | some (k, r2) =>
           match skipWs r2 with
           | ':' :: r3 =>
             match parseVal f r3 with
             | none => none
             | some (v, r4) =>
               match skipWs r4 with
               | ',' :: r5 =>
                 match parseFields f r5 with
                 | none => none
                 | some (fs, r6) => some ((k, v) :: fs, r6)
               | d2 :: r5 => if d2 = cbr then some ([(k, v)], r5) else none
               | [] => none
           | _ => none
       | _ => none) := rfl

/-- The fuel requirement of a value is positive. -/
theorem needV_pos (v : JVal) : 1 ≤ needV v := by
  cases v with
  | arr a => cases a <;> simp [needV]
  | obj fs =>
    cases fs with
    | nil => simp [needV]
    | cons f gs => rw [show needV (.obj (f :: gs)) = 1 + needF f.2 gs from by rw [needV]]; omega
  | _ => simp [needV]

/-- The fuel requirement of an item list is positive. -/
theorem needI_pos (v : JVal) (vs : List JVal) : 1 ≤ needI v vs := by
  cases vs <;> simp [needI]

/-- The fuel requirement of a member list is positive. -/
theorem needF_pos (x : JVal) (fs : List (Str × JVal)) : 1 ≤ needF x fs := by
  cases fs with
  | nil => simp [needF]
  | cons g gs => rw [show needF x (g :: gs) = 1 + max (needV x) (needF g.2 gs) from by
      rw [needF]]; omega

/-- `parseFields` is unchanged by pre-skipping whitespace. -/
theorem parseFields_skipWs (fuel : Nat) (l : Str) :
    parseFields fuel (skipWs l) = parseFields fuel l := by
  obtain ⟨pre, hdec, hall⟩ := exists_ws_decomp l
  conv_rhs => rw [hdec]
  rw [parseFields_ws hall]

/-- A serialized member list is the indentation, the quoted first key, a
colon and space, the first serialized value, and a (possibly empty) tail. -/
theorem strFields_decomp (d : Nat) (k : Str) (x : JVal) (fs : List (Str × JVal)) :
    ∃ R, strFields d k x fs =
      ind d ++ ('"' :: (escapeStr k ++ ('"' :: (':' :: ' ' :: (strVal d x ++ R))))) := by
  cases fs with
  | nil =>
    refine ⟨[], ?_⟩
    rw [strFields, List.append_nil]
    rw [show ind d ++ strLit k ++ ':' :: ' ' :: strVal d x
        = ind d ++ (strLit k ++ (':' :: ' ' :: strVal d x)) from by simp]
    rw [strLit_append]
  | cons g gs =>
    refine ⟨',' :: '\n' :: strFields d g.1 g.2 gs, ?_⟩
    rw [show strFields d k x ((g.1, g.2) :: gs) = ind d ++ strLit k ++ ':' :: ' ' :: strVal d x
        ++ ',' :: '\n' :: strFields d g.1 g.2 gs from by rw [strFields]]
    rw [show ind d ++ strLit k ++ ':' :: ' ' :: strVal d x ++ ',' :: '\n' :: strFields d g.1 g.2 gs
        = ind d ++ (strLit k ++ (':' :: ' ' :: (strVal d x ++ ',' :: '\n' :: strFields d g.1 g.2 gs)))
        from by simp]
    rw [strLit_append]

/-- A list with a head other than `n` is not the null keyword prefix. -/
theorem take4_ne_null {c : Char} {X : Str} (h : c ≠ 'n') :
    (c :: X).take 4 ≠ str "null" := by
  rw [show str "null" = 'n' :: str "ull" from rfl]
  exact take_succ_ne h 3

/-- A list with a head other than `t` is not the true keyword prefix. -/
theorem take4_ne_true {c : Char} {X : Str} (h : c ≠ 't') :
    (c :: X).take 4 ≠ str "true" := by
  rw [show str "true" = 't' :: str "rue" from rfl]
  exact take_succ_ne h 3

/-- A list with a head other than `f` is not the false keyword prefix. -/
theorem take5_ne_false {c : Char} {X : Str} (h : c ≠ 'f') :
    (c :: X).take 5 ≠ str "false" := by
  rw [show str "false" = 'f' :: str "alse" from rfl]
  exact take_succ_ne h 4

/-- `parseVal` skips a single leading space. -/
theorem parseVal_space (fuel : Nat) (l : Str) :
    parseVal fuel (' ' :: l) = parseVal fuel l :=
  @parseVal_ws [' '] (by decide) fuel l

/-- `parseFields` skips a single leading newline. -/
theorem parseFields_newline (fuel : Nat) (l : Str) :
    parseFields fuel ('\n' :: l) = parseFields fuel l :=
  @parseFields_ws ['\n'] (by decide) fuel l

/-- A cons with a non-digit literal head never starts with a digit. -/
theorem headD_cons_not_digit {c : Char} {T : Str} (h : c.isDigit = false) :
    ((c :: T).headD ' ').isDigit = false := by
  rw [List.headD_cons]
  exact h

mutual

/-- Parsing the serialization of a value yields the value back, given enough
fuel, whenever the remaining input does not start with a digit. -/
theorem rtVal : ∀ (v : JVal) (d fuel : Nat) (rest : Str), needV v ≤ fuel →
    (rest.headD ' ').isDigit = false →
    parseVal fuel (strVal d v ++ rest) = some (v, rest)
  | .null, d, fuel, rest, hfuel, hrest => by
    obtain ⟨f, rfl⟩ : ∃ f, fuel = f + 1 := ⟨fuel - 1, by have := needV_pos JVal.null; omega⟩
    rw [show strVal d .null = str "null" from by rw [strVal]]
    rfl
  | .bool true, d, fuel, rest, hfuel, hrest => by
    obtain ⟨f, rfl⟩ : ∃ f, fuel = f + 1 :=
      ⟨fuel - 1, by have := needV_pos (JVal.bool true); omega⟩
    rw [show strVal d (.bool true) = str "true" from by rw [strVal]]
    rfl
  | .bool false, d, fuel, rest, hfuel, hrest => by
    obtain ⟨f, rfl⟩ : ∃ f, fuel = f + 1 :=
      ⟨fuel - 1, by have := needV_pos (JVal.bool false); omega⟩
    rw [show strVal d (.bool false) = str "false" from by rw [strVal]]
    rfl
  | .num n, d, fuel, rest, hfuel, hrest => by
    obtain ⟨f, rfl⟩ : ∃ f, fuel = f + 1 := ⟨fuel - 1, by have := needV_pos (JVal.num n); omega⟩
    obtain ⟨c, cs, hcs, hws, hn1, hn2, hn3, hn4, hn5, hn6⟩ := intLit_head n
    rw [show strVal d (.num n) = intLit n from by rw [strVal], hcs, List.cons_append,
      parseVal_succ]
    simp only [skipWs_cons_of_neg hws]
    rw [if_neg (take4_ne_null hn1), if_neg (take4_ne_true hn2), if_neg (take5_ne_false hn3)]
    simp only [if_neg hn4, if_neg hn5, if_neg hn6]
    rw [← List.cons_append, ← hcs, parseNum_intLit n rest hrest]
    rfl
  | .strv s, d, fuel, rest, hfuel, hrest => by
    obtain ⟨f, rfl⟩ : ∃ f, fuel = f + 1 := ⟨fuel - 1, by have := needV_pos (JVal.strv s); omega⟩
    rw [show strVal d (.strv s) = strLit s from by rw [strVal], strLit_append,
      parseVal_succ]
    simp only [skipWs_cons_of_neg (by decide : jsonWs '"' = false)]
    rw [if_neg (take4_ne_null (by decide)), if_neg (take4_ne_true (by decide)),
      if_neg (take5_ne_false (by decide))]
    simp only [reduceIte]
    rw [parseStrBody_escape s rest]
    rfl
  | .arr [], d, fuel, rest, hfuel, hrest => by
    obtain ⟨f, rfl⟩ : ∃ f, fuel = f + 1 := ⟨fuel - 1, by have := needV_pos (JVal.arr []); omega⟩
    rw [show strVal d (.arr []) = str "[]" from by rw [strVal]]
    rfl
  | .arr (v :: vs), d, fuel, rest, hfuel, hrest => by
    obtain ⟨f, rfl⟩ : ∃ f, fuel = f + 1 :=
      ⟨fuel - 1, by have := needV_pos (JVal.arr (v :: vs)); omega⟩
    have hneed : needI v vs ≤ f := by
      rw [show needV (.arr (v :: vs)) = 1 + needI v vs from by rw [needV]] at hfuel
      omega
    rw [show strVal d (.arr (v :: vs))
        = '[' :: '\n' :: (strItems (d + 1) v vs ++ '\n' :: (ind d ++ [']'])) from by
      rw [strVal]]
    simp only [List.cons_append, List.append_assoc, List.singleton_append, List.nil_append]
    rw [parseVal_succ]
    simp only [skipWs_cons_of_neg (by decide : jsonWs '[' = false)]
    rw [if_neg (take4_ne_null (by decide)), if_neg (take4_ne_true (by decide)),
      if_neg (take5_ne_false (by decide))]
    simp only [if_neg (show ¬(('[' : Char) = '"') by decide)]
    simp only [if_true]
    obtain ⟨R, hR⟩ := strItems_decomp (d + 1) v vs
    obtain ⟨c₀, L, hL, hLws, hLne⟩ := strVal_head_ok (d + 1) v
    have hskip : skipWs ('\n' :: (strItems (d + 1) v vs ++ '\n' :: (ind d ++ ']' :: rest)))
        = c₀ :: (L ++ (R ++ ('\n' :: (ind d ++ ']' :: rest)))) := by
      rw [show ('\n' :: (strItems (d + 1) v vs ++ '\n' :: (ind d ++ ']' :: rest)))
          = ['\n'] ++ (strItems (d + 1) v vs ++ '\n' :: (ind d ++ ']' :: rest)) from rfl]
      rw [skipWs_append_of_all (by decide), hR, hL]
      simp only [List.append_assoc, List.cons_append]
      rw [skipWs_append_of_all (ind_all_ws (d + 1))]
      exact skipWs_cons_of_neg hLws _
    rw [hskip]
    split
    · next r2 heq =>
      exfalso
      injection heq with h1 _
      exact hLne h1
    · next r2 heq =>
      rw [← hskip, parseItems_skipWs]
      rw [show ('\n' :: (strItems (d + 1) v vs ++ '\n' :: (ind d ++ ']' :: rest)))
          = ['\n'] ++ (strItems (d + 1) v vs ++ ('\n' :: (ind d ++ ']' :: rest))) from rfl]
      rw [parseItems_ws (by decide)]
      rw [rtItems v vs (d + 1) f (ind d) rest hneed (ind_all_ws d)]
      rfl
  | .obj [], d, fuel, rest, hfuel, hrest => by
    obtain ⟨f, rfl⟩ : ∃ f, fuel = f + 1 := ⟨fuel - 1, by have := needV_pos (JVal.obj []); omega⟩
    rw [show strVal d (.obj []) = [obr, cbr] from by rw [strVal]]
    rfl
  | .obj (g :: gs), d, fuel, rest, hfuel, hrest => by
    obtain ⟨f, rfl⟩ : ∃ f, fuel = f + 1 :=
      ⟨fuel - 1, by have := needV_pos (JVal.obj (g :: gs)); omega⟩
    have hneed : needF g.2 gs ≤ f := by
      rw [show needV (.obj ((g.1, g.2) :: gs)) = 1 + needF g.2 gs from by rw [needV]] at hfuel
      omega
    rw [show strVal d (.obj ((g.1, g.2) :: gs))
        = obr :: '\n' :: (strFields (d + 1) g.1 g.2 gs ++ '\n' :: (ind d ++ [cbr])) from by
      rw [strVal]]
    simp only [List.cons_append, List.append_assoc, List.singleton_append, List.nil_append]
    rw [parseVal_succ]
    simp only [skipWs_cons_of_neg (by decide : jsonWs obr = false)]
    rw [if_neg (take4_ne_null (by decide)), if_neg (take4_ne_true (by decide)),
      if_neg (take5_ne_false (by decide))]
    simp only [if_neg (show ¬(obr = '"') by decide), if_neg (show ¬(obr = '[') by decide)]
    simp only [if_true]
    obtain ⟨R, hR⟩ := strFields_decomp (d + 1) g.1 g.2 gs
    have hskip : skipWs ('\n' :: (strFields (d + 1) g.1 g.2 gs ++ '\n' :: (ind d ++ cbr :: rest)))
        = '"' :: (escapeStr g.1 ++ ('"' :: (':' :: ' ' ::
            (strVal (d + 1) g.2 ++ (R ++ ('\n' :: (ind d ++ cbr :: rest))))))) := by
      rw [show ('\n' :: (strFields (d + 1) g.1 g.2 gs ++ '\n' :: (ind d ++ cbr :: rest)))
          = ['\n'] ++ (strFields (d + 1) g.1 g.2 gs ++ '\n' :: (ind d ++ cbr :: rest)) from rfl]
      rw [skipWs_append_of_all (by decide), hR]
      simp only [List.append_assoc, List.cons_append]
      rw [skipWs_append_of_all (ind_all_ws (d + 1))]
      exact skipWs_cons_of_neg (by decide) _
    rw [hskip]
    split
    · next d2 r2 heq =>
      injection heq with h1 h2
      subst h1
      subst h2
      rw [if_neg (by decide : ¬(('"' : Char) = cbr))]
      rw [← hskip, parseFields_skipWs]
      rw [show ('\n' :: (strFields (d + 1) g.1 g.2 gs ++ '\n' :: (ind d ++ cbr :: rest)))
          = ['\n'] ++ (strFields (d + 1) g.1 g.2 gs ++ ('\n' :: (ind d ++ cbr :: rest))) from rfl]
      rw [parseFields_ws (by decide)]
      rw [rtFields g.2 g.1 gs (d + 1) f (ind d) rest hneed (ind_all_ws d)]
      rfl
    · next heq => exact absurd heq (by simp)
termination_by v => sizeOf v
decreasing_by
  all_goals simp_wf
  all_goals try omega
  all_goals (cases g; simp only [Prod.mk.sizeOf_spec] at *; omega)

/-- Parsing the serialization of a non-empty array body yields the elements
back. -/
theorem rtItems : ∀ (v : JVal) (vs : List JVal) (d fuel : Nat) (pad rest : Str),
    needI v vs ≤ fuel → pad.all jsonWs = true →
    parseItems fuel (strItems d v vs ++ ('\n' :: (pad ++ (']' :: rest))))
      = some (v :: vs, rest)
  | v, [], d, fuel, pad, rest, hfuel, hpad => by
    obtain ⟨f, rfl⟩ : ∃ f, fuel = f + 1 := ⟨fuel - 1, by have := needI_pos v []; omega⟩
    have hsk : skipWs ('\n' :: (pad ++ (']' :: rest))) = ']' :: rest := by
      rw [show ('\n' :: (pad ++ (']' :: rest))) = ('\n' :: pad) ++ (']' :: rest) from rfl]
      rw [skipWs_append_of_all (by simp [hpad, show jsonWs '\n' = true from rfl])]
      exact skipWs_cons_of_neg (by decide) rest
    have hneedv : needV v ≤ f := by
      rw [show needI v [] = 1 + needV v from by rw [needI]] at hfuel
      omega
    rw [show strItems d v [] = ind d ++ strVal d v from by rw [strItems]]
    rw [parseItems_succ, List.append_assoc, parseVal_ws (ind_all_ws d)]
    rw [rtVal v d f ('\n' :: (pad ++ (']' :: rest))) hneedv (headD_cons_not_digit (by decide))]
    simp only [hsk]
  | v, w :: ws, d, fuel, pad, rest, hfuel, hpad => by
    obtain ⟨f, rfl⟩ : ∃ f, fuel = f + 1 := ⟨fuel - 1, by have := needI_pos v (w :: ws); omega⟩
    have hmax : needV v ≤ f ∧ needI w ws ≤ f := by
      rw [show needI v (w :: ws) = 1 + max (needV v) (needI w ws) from by rw [needI]] at hfuel
      constructor <;> omega
    rw [show strItems d v (w :: ws) = ind d ++ strVal d v ++ ',' :: '\n' :: strItems d w ws
        from by rw [strItems]]
    simp only [List.append_assoc, List.cons_append]
    rw [parseItems_succ, parseVal_ws (ind_all_ws d)]
    rw [rtVal v d f (',' :: '\n' :: (strItems d w ws ++ ('\n' :: (pad ++ (']' :: rest)))))
      hmax.1 (headD_cons_not_digit (by decide))]
    simp only [skipWs_cons_of_neg (by decide : jsonWs ',' = false)]
    rw [show ('\n' :: (strItems d w ws ++ ('\n' :: (pad ++ (']' :: rest)))))
        = ['\n'] ++ (strItems d w ws ++ ('\n' :: (pad ++ (']' :: rest)))) from rfl]
    rw [parseItems_ws (by decide)]
    rw [rtItems w ws d f pad rest hmax.2 hpad]
termination_by v vs => sizeOf v + sizeOf vs
decreasing_by
  all_goals simp_wf
  all_goals try omega

/-- Parsing the serialization of a non-empty object body yields the members
back. -/
theorem rtFields : ∀ (x : JVal) (k : Str) (fs : List (Str × JVal)) (d fuel : Nat)
    (pad rest : Str),
    needF x fs ≤ fuel → pad.all jsonWs = true →
    parseFields fuel (strFields d k x fs ++ ('\n' :: (pad ++ (cbr :: rest))))
      = some ((k, x) :: fs, rest)
  | x, k, [], d, fuel, pad, rest, hfuel, hpad => by
    obtain ⟨f, rfl⟩ : ∃ f, fuel = f + 1 := ⟨fuel - 1, by have := needF_pos x []; omega⟩
    have hsk : skipWs ('\n' :: (pad ++ (cbr :: rest))) = cbr :: rest := by
      rw [show ('\n' :: (pad ++ (cbr :: rest))) = ('\n' :: pad) ++ (cbr :: rest) from rfl]
      rw [skipWs_append_of_all (by simp [hpad, show jsonWs '\n' = true from rfl])]
      exact skipWs_cons_of_neg (by decide) rest
    have hneedv : needV x ≤ f := by
      rw [show needF x [] = 1 + needV x from by rw [needF]] at hfuel
      omega
    rw [show strFields d k x [] = ind d ++ strLit k ++ ':' :: ' ' :: strVal d x
        from by rw [strFields]]
    simp only [List.append_assoc, List.cons_append]
    rw [parseFields_succ]
    rw [skipWs_append_of_all (ind_all_ws d), strLit_append]
    rw [skipWs_cons_of_neg (by decide : jsonWs '"' = false)]
    simp only [parseStrBody_escape]
    simp only [skipWs_cons_of_neg (by decide : jsonWs ':' = false)]
    simp only [parseVal_space]
    rw [rtVal x d f ('\n' :: (pad ++ (cbr :: rest))) hneedv (headD_cons_not_digit (by decide))]
    simp only [hsk]
    split
    · next r5 heq =>
      exfalso
      injection heq with h1 _
      exact absurd h1 (by decide)
    · next d2 r5 heq =>
      injection heq with h1 h2
      subst h1
      subst h2
      rw [if_pos rfl]
    · next heq => exact absurd heq (by simp)
  | x, k, g :: gs, d, fuel, pad, rest, hfuel, hpad => by
    obtain ⟨f, rfl⟩ : ∃ f, fuel = f + 1 := ⟨fuel - 1, by have := needF_pos x (g :: gs); omega⟩
    have hmax : needV x ≤ f ∧ needF g.2 gs ≤ f := by
      rw [show needF x (g :: gs) = 1 + max (needV x) (needF g.2 gs) from by rw [needF]] at hfuel
      constructor <;> omega
    rw [show strFields d k x ((g.1, g.2) :: gs) = ind d ++ strLit k ++ ':' :: ' ' :: strVal d x
        ++ ',' :: '\n' :: strFields d g.1 g.2 gs from by rw [strFields]]
    simp only [List.append_assoc, List.cons_append]
    rw [parseFields_succ]
    rw [skipWs_append_of_all (ind_all_ws d), strLit_append]
    rw [skipWs_cons_of_neg (by decide : jsonWs '"' = false)]
    simp only [parseStrBody_escape]
    simp only [skipWs_cons_of_neg (by decide : jsonWs ':' = false)]
    simp only [parseVal_space]
    rw [rtVal x d f (',' :: '\n' :: (strFields d g.1 g.2 gs ++ ('\n' :: (pad ++ (cbr :: rest)))))
      hmax.1 (headD_cons_not_digit (by decide))]
    simp only [skipWs_cons_of_neg (by decide : jsonWs ',' = false)]
    simp only [parseFields_newline]
    rw [rtFields g.2 g.1 gs d f pad rest hmax.2 hpad]
termination_by x _ fs => sizeOf x + sizeOf fs
decreasing_by
  all_goals simp_wf
  all_goals try omega
  all_goals (cases g; simp only [Prod.mk.sizeOf_spec] at *; omega)

end

/-- A serialized value is never the empty string. -/
theorem strVal_length_pos (d : Nat) (v : JVal) : 1 ≤ (strVal d v).length := by
  obtain ⟨c, cs, hcs, -, -⟩ := strVal_head_ok d v
  rw [hcs]
  simp

mutual

/-- The fuel requirement of a value is at most the length of its
serialization. -/
theorem boundV : ∀ (v : JVal) (d : Nat), needV v ≤ (strVal d v).length
  | .null, d => by rw [needV, strVal]; decide
  | .bool true, d => by rw [needV, strVal]; decide
  | .bool false, d => by rw [needV, strVal]; decide
  | .num n, d => by
    rw [needV, strVal]
    have := strVal_length_pos d (.num n)
    rw [strVal] at this
    omega
  | .strv s, d => by
    rw [needV, strVal]
    simp [strLit]
  | .arr [], d => by rw [needV, strVal]; decide
  | .arr (v :: vs), d => by
    rw [show needV (.arr (v :: vs)) = 1 + needI v vs from by rw [needV]]
    have h1 := boundI v vs (d + 1)
    rw [show strVal d (.arr (v :: vs))
        = '[' :: '\n' :: (strItems (d + 1) v vs ++ '\n' :: (ind d ++ [']'])) from by rw [strVal]]
    simp only [List.length_cons, List.length_append]
    omega
  | .obj [], d => by rw [needV, strVal]; decide
  | .obj (g :: gs), d => by
    rw [show needV (.obj ((g.1, g.2) :: gs)) = 1 + needF g.2 gs from by rw [needV]]
    have h1 := boundF g.2 g.1 gs (d + 1)
    rw [show strVal d (.obj ((g.1, g.2) :: gs))
        = obr :: '\n' :: (strFields (d + 1) g.1 g.2 gs ++ '\n' :: (ind d ++ [cbr])) from by
      rw [strVal]]
    simp only [List.length_cons, List.length_append]
    omega
termination_by v _ => sizeOf v
decreasing_by
  all_goals simp_wf
  all_goals try omega
  all_goals (cases g; simp only [Prod.mk.sizeOf_spec] at *; omega)

/-- The fuel requirement of an item list is at most one more than the length
of its serialization. -/
theorem boundI : ∀ (v : JVal) (vs : List JVal) (d : Nat),
    needI v vs ≤ (strItems d v vs).length + 1
  | v, [], d => by
    rw [show needI v [] = 1 + needV v from by rw [needI]]
    have h1 := boundV v d
    have h2 := strVal_length_pos d v
    rw [show strItems d v [] = ind d ++ strVal d v from by rw [strItems]]
    simp only [List.length_append]
    omega
  | v, w :: ws, d => by
    rw [show needI v (w :: ws) = 1 + max (needV v) (needI w ws) from by rw [needI]]
    have h1 := boundV v d
    have h2 := boundI w ws d
    have h3 := strVal_length_pos d v
    rw [show strItems d v (w :: ws) = ind d ++ strVal d v ++ ',' :: '\n' :: strItems d w ws
        from by rw [strItems]]
    simp only [List.length_append, List.length_cons]
    omega
termination_by v vs _ => sizeOf v + sizeOf vs
decreasing_by
  all_goals simp_wf
  all_goals try omega

/-- The fuel requirement of a member list is at most one more than the length
of its serialization. -/
theorem boundF : ∀ (x : JVal) (k : Str) (fs : List (Str × JVal)) (d : Nat),
    needF x fs ≤ (strFields d k x fs).length + 1
  | x, k, [], d => by
    rw [show needF x [] = 1 + needV x from by rw [needF]]
    have h1 := boundV x d
    have h2 := strVal_length_pos d x
    rw [show strFields d k x [] = ind d ++ strLit k ++ ':' :: ' ' :: strVal d x
        from by rw [strFields]]
    simp only [List.length_append, List.length_cons]
    omega
  | x, k, g :: gs, d => by
    rw [show needF x (g :: gs) = 1 + max (needV x) (needF g.2 gs) from by rw [needF]]
    have h1 := boundV x d
    have h2 := boundF g.2 g.1 gs d
    have h3 := strVal_length_pos d x
    rw [show strFields d k x ((g.1, g.2) :: gs) = ind d ++ strLit k ++ ':' :: ' ' :: strVal d x
        ++ ',' :: '\n' :: strFields d g.1 g.2 gs from by rw [strFields]]
    simp only [List.length_append, List.length_cons]
    omega
termination_by x _ fs _ => sizeOf x + sizeOf fs
decreasing_by
  all_goals simp_wf
  all_goals try omega
  all_goals (cases g; simp only [Prod.mk.sizeOf_spec] at *; omega)

end

/-- Parsing the serialization of any value (with the fuel the code supplies)
returns exactly that value. -/
theorem parseJson_strVal (v : JVal) : parseJson (strVal 0 v) = some v := by
  unfold parseJson
  have h1 : parseVal ((strVal 0 v).length + 1) (strVal 0 v ++ []) = some (v, []) :=
    rtVal v 0 ((strVal 0 v).length + 1) [] (by have := boundV v 0; omega) (by decide)
  rw [List.append_nil] at h1
  rw [h1]
  rfl

end Json

/-- C9: with a current project, writing a checkpoint value with `writeState`
and reloading it with `readState` yields a structurally equal value: the
`JSON.stringify(·, null, 2)` / `JSON.parse` round trip is lossless for the
persisted shapes. -/
theorem writeState_readState_roundtrip (ws : Json.Workspace) (name : Str) (v : Json.JVal)
    (h : ws.currentProject.isSome = true) :
    Json.readState (Json.writeState ws name v) name = some v := by
  obtain ⟨dir, hdir⟩ := Option.isSome_iff_exists.mp h
  simp only [Json.writeState, Json.readState, hdir]
  rw [List.find?_cons_of_pos _ (by simp)]
  exact Json.parseJson_strVal v

/-- C9 witness: a concrete checkpoint value containing strings with escapes,
booleans, null, numbers, arrays and nested objects survives the round
trip. -/
theorem writeState_readState_roundtrip_witness :
    Json.readState (Json.writeState Fixtures.exWorkspace (str "ideation") Fixtures.exState)
      (str "ideation") = some Fixtures.exState :=
  writeState_readState_roundtrip Fixtures.exWorkspace (str "ideation") Fixtures.exState rfl

end MAFARS
